import Mathlib

/-!
Verification of seed.c: a launcher that mounts a zip archive appended to its
own executable through PhysFS, exposes it to Lua via a package.loaders entry
and a small read-only file API, and runs /init.lua from the archive.

The C sources are shallowly embedded: PhysFS file state becomes an explicit
`VFile` record threaded through each operation, the Lua stack results become
explicit outcome types, and machine integers become Nat/Int.
-/

namespace Seed

/-- `BUFSIZ` from stdio.h, the chunk size requested by the `reader` callback
(8192 on the build platform). -/
def BUFSIZ : Nat := 8192

/-- `LUAL_BUFFERSIZE` from luaconf.h, which defines it as `BUFSIZ`; it is the
declared capacity of `struct reader_data.buffer` and the per-iteration chunk
bound of `read_bytes`. -/
def LUAL_BUFFERSIZE : Nat := BUFSIZ

/-- State of an open PhysFS file: the byte contents, the current read
position, and whether the underlying device reports failures (`broken` makes
`PHYSFS_read` return the -1 error result). -/
structure VFile where
  contents : List Char
  pos : Nat
  broken : Bool
deriving DecidableEq, Repr

/-- `PHYSFS_read file buf 1 count`: reads up to `count` bytes from the current
position. `none` models the -1 complete-failure return; `some data` models a
successful read of `data.length` bytes, advancing the position. -/
def PHYSFS_read (f : VFile) (count : Nat) : Option (List Char) × VFile :=
  if f.broken then (none, f)
  else
    let data := (f.contents.drop f.pos).take count
    (some data, { f with pos := f.pos + data.length })

/-- `PHYSFS_eof`: nonzero when the position has reached the end of the
contents. -/
def PHYSFS_eof (f : VFile) : Bool := f.contents.length ≤ f.pos

/-- The compiler-facing chunk callback `reader` (src/seed.c lines 92-100): one
`PHYSFS_read` of `BUFSIZ` bytes into `rd->buffer`; a -1 result raises via
`luaL_error` (modelled as `.error`), otherwise the chunk and its length are
handed back to `lua_load`. -/
def reader (f : VFile) : Except String (List Char × VFile) :=
  match PHYSFS_read f BUFSIZ with
  | (none, _) => .error "error reading file"
  | (some data, f2) => .ok (data, f2)

/-- The do-while loop of `read_bytes` (src/seed.c lines 185-198): each
iteration requests `min LUAL_BUFFERSIZE bytes` bytes; a positive result is
appended to the accumulator and subtracted from `bytes`; the loop continues
while the last result was positive and bytes remain. A -1 result (like a 0
result) merely exits the loop; the accumulator is pushed regardless. -/
def read_bytes_loop (f : VFile) (bytes : Nat) (acc : List Char) :
    List Char × VFile :=
  let to_read := min LUAL_BUFFERSIZE bytes
  match PHYSFS_read f to_read with
  | (none, f2) => (acc, f2)
  | (some data, f2) =>
    if _h : 0 < data.length ∧ 0 < bytes - data.length then
      read_bytes_loop f2 (bytes - data.length) (acc ++ data)
    else if 0 < data.length then (acc ++ data, f2)
    else (acc, f2)
termination_by bytes
decreasing_by omega

/-- `read_bytes` (src/seed.c lines 179-202): accumulate up to `bytes` bytes
through the chunked loop and return the accumulated string and the updated
file. -/
def read_bytes (f : VFile) (bytes : Nat) : List Char × VFile :=
  read_bytes_loop f bytes []

/-- `(PHYSFS_uint64)(-1)`, the byte count passed by the `"*a"` branch. -/
def PHYSFS_uint64_max : Nat := 2 ^ 64 - 1

/-- The second argument accepted by `seed_file_read`: an integer count or the
string `"*a"`. -/
inductive ReadArg where
  | num : Int → ReadArg
  | all : ReadArg
deriving DecidableEq, Repr

/-- Result of a file-API call: a returned Lua value (`.value v f` with `v`
either `none` for nil or `some data` for a string, plus the updated stored
file), or a raised Lua error (`.err`). -/
inductive ReadOutcome where
  | value : Option (List Char) → VFile → ReadOutcome
  | err : String → ReadOutcome
deriving DecidableEq, Repr

/-- The Lua value a `ReadOutcome` returns, or `none` if it raised instead. -/
def returned_value : ReadOutcome → Option (Option (List Char))
  | .value v _ => some v
  | .err _ => none

/-- `seed_file_read` (src/seed.c lines 204-228) acting on the stored
descriptor of a handle (`none` models the NULLed descriptor that makes
`check_seed_open_file` raise). Integer argument: negative counts are rejected
by `luaL_argcheck`; at end-of-file nil is returned; otherwise `read_bytes`
runs. `"*a"`: `read_bytes` runs with the maximal count, no end-of-file
check. -/
def seed_file_read (handle : Option VFile) (a : ReadArg) : ReadOutcome :=
  match handle with
  | none => .err "attempt to use a closed file"
  | some f =>
    match a with
    | .num n =>
      if n < 0 then .err "negative number of bytes"
      else if PHYSFS_eof f then .value none f
      else
        let r := read_bytes f n.toNat
        .value (some r.1) r.2
    | .all =>
      let r := read_bytes f PHYSFS_uint64_max
      .value (some r.1) r.2

/-- Result of `seed_file_close`: `.ok` models pushing true, `.fail` models the
(nil, message) pair when `PHYSFS_close` reports failure, `.errClosed` models
the raised closed-handle error from `check_seed_open_file`. -/
inductive CloseOutcome where
  | ok : CloseOutcome
  | fail : CloseOutcome
  | errClosed : CloseOutcome
deriving DecidableEq, Repr

/-- `seed_file_close` (src/seed.c lines 162-177): on a NULLed descriptor the
open-file check raises; otherwise `PHYSFS_close` runs (its success modelled by
`physfsCloseOk`): success NULLs the stored descriptor and returns true,
failure keeps the descriptor and returns (nil, message). -/
def seed_file_close (handle : Option VFile) (physfsCloseOk : Bool) :
    CloseOutcome × Option VFile :=
  match handle with
  | none => (.errClosed, none)
  | some f => if physfsCloseOk then (.ok, none) else (.fail, some f)

/-- `to_filename` (src/seed.c lines 266-275): push "/", push the module name
with every "." replaced by "/" (`luaL_gsub`), push ".lua", concatenate the
three. Modelled on byte lists; the gsub of one-byte patterns is a map. -/
def to_filename (module : List Char) : List Char :=
  ('/' :: module.map (fun c => if c = '.' then '/' else c)) ++ ['.', 'l', 'u', 'a']

/-- An entry of the `package.loaders` chain: one of the default Lua searchers,
or the `physfs_searcher` registered by this program. -/
inductive Resolver where
  | builtin : Nat → Resolver
  | physfs_searcher : Resolver
deriving DecidableEq, Repr

/-- Lua `table.insert(t, p, v)` with a 1-based position: shifts the elements
from position `p` up and places `v` at position `p`. -/
def lua_table_insert {α : Type} : List α → Nat → α → List α
  | l, 0, x => x :: l
  | l, 1, x => x :: l
  | [], _ + 2, x => [x]
  | a :: l, n + 2, x => a :: lua_table_insert l (n + 1) x

/-- `init_physfs_loader` (src/seed.c lines 296-316): calls
`table.insert(package.loaders, 2, physfs_searcher)` on the current chain. -/
def init_physfs_loader (loaders : List Resolver) : List Resolver :=
  lua_table_insert loaders 2 .physfs_searcher

/-- The mount step of `main` (src/seed.c lines 332-362). `selfMountOk` models
`PHYSFS_mount` on the combined base-directory + executable-basename path;
`mountOk` models `PHYSFS_mount` on a given argument path. Returns `none` on
the fatal exit-1 path, otherwise `some (skip_arg, mounted path)`: `skip_arg`
starts at 1 and is incremented exactly when the self-mount fails. -/
def mount_phase (selfMountOk : Bool) (mountOk : String → Bool)
    (selfPath : String) (argv : List String) : Option (Nat × String) :=
  if selfMountOk then some (1, selfPath)
  else
    match argv with
    | _ :: arg1 :: _ => if mountOk arg1 then some (2, arg1) else none
    | _ => none

/-- The entry-point call arguments pushed by `main` (src/seed.c lines
390-392): `argv[i + skip_arg - 1]` for `i = 1 .. argc - skip_arg`, i.e. the
suffix of `argv` after its first `skip_arg` entries, at 1-based call
positions. -/
def forwarded_args (argv : List String) (skip_arg : Nat) : List String :=
  argv.drop skip_arg

/-- The global `arg` table built by `main` (src/seed.c lines 370-377): the
loop sets `arg[i - skip_arg + 1] = argv[i]` for `0 ≤ i < argc`, so index `j`
holds `argv[j + skip_arg - 1]` when that is in range and no entry
otherwise. -/
def arg_table (argv : List String) (skip_arg : Nat) (j : Int) : Option String :=
  if 0 ≤ j + skip_arg - 1 ∧ j + skip_arg - 1 < argv.length
  then argv[(j + skip_arg - 1).toNat]? else none

theorem take_length_append_drop {α : Type} (n : Nat) (l : List α) :
    l.take n ++ l.drop (l.take n).length = l := by
  rcases le_or_lt n l.length with h | h
  · rw [List.length_take, min_eq_left h, List.take_append_drop]
  · rw [List.take_of_length_le (Nat.le_of_lt h), List.drop_length, List.append_nil]

theorem read_bytes_loop_drains (bytes : Nat) (cs : List Char) (p : Nat)
    (acc : List Char) (hpos : p ≤ cs.length) (hbytes : cs.length - p ≤ bytes) :
    read_bytes_loop ⟨cs, p, false⟩ bytes acc =
      (acc ++ cs.drop p, ⟨cs, cs.length, false⟩) := by
  induction bytes using Nat.strong_induction_on generalizing p acc with
  | _ bytes ih =>
  unfold read_bytes_loop
  simp only [PHYSFS_read, Bool.false_eq_true, if_false]
  have hLB : 0 < LUAL_BUFFERSIZE := by norm_num [LUAL_BUFFERSIZE, BUFSIZ]
  set dl := (List.take (LUAL_BUFFERSIZE ⊓ bytes) (List.drop p cs)).length with hdl
  have hdl2 : dl = min (LUAL_BUFFERSIZE ⊓ bytes) (cs.length - p) := by
    rw [hdl, List.length_take, List.length_drop]
  by_cases hc : 0 < dl ∧ 0 < bytes - dl
  · rw [dif_pos hc]
    rw [ih (bytes - dl) (by omega) (p + dl)
      (acc ++ List.take (LUAL_BUFFERSIZE ⊓ bytes) (List.drop p cs))
      (by omega) (by omega)]
    rw [List.append_assoc]
    have hdrop : List.drop (p + dl) cs = List.drop dl (List.drop p cs) := by
      rw [List.drop_drop, Nat.add_comm]
    rw [hdrop, hdl, take_length_append_drop]
  · rw [dif_neg hc]
    by_cases hd : 0 < dl
    · rw [if_pos hd]
      have htake : List.take (LUAL_BUFFERSIZE ⊓ bytes) (List.drop p cs)
          = List.drop p cs := by
        apply List.take_of_length_le
        rw [List.length_drop]
        omega
      rw [htake]
      have hp : p + dl = cs.length := by omega
      rw [hp]
    · rw [if_neg hd]
      have hnil : List.drop p cs = [] := by
        apply List.drop_eq_nil_of_le
        omega
      have hp : p + dl = cs.length := by omega
      rw [hnil, hp, List.append_nil]

theorem count_slash_map (m : List Char) (hm : '/' ∉ m) :
    (m.map (fun c => if c = '.' then '/' else c)).count '/' = m.count '.' := by
  induction m with
  | nil => rfl
  | cons c m ih =>
    simp only [List.mem_cons, not_or] at hm
    have hc' : c ≠ '/' := fun h => hm.1 h.symm
    simp only [List.map_cons, List.count_cons, ih hm.2]
    by_cases hc : c = '.'
    · simp [hc]
    · simp [hc, hc']

theorem arg_table_get (argv : List String) (skip : Nat) (j : Int) (k : Nat)
    (hk : j + skip - 1 = (k : Int)) (hlt : k < argv.length) :
    arg_table argv skip j = argv[k]? := by
  unfold arg_table
  have hcond : 0 ≤ j + skip - 1 ∧ j + skip - 1 < (argv.length : Int) := by omega
  rw [if_pos hcond, hk, Int.toNat_natCast]

theorem arg_table_none (argv : List String) (skip : Nat) (j : Int)
    (h : j + skip - 1 < 0 ∨ (argv.length : Int) ≤ j + skip - 1) :
    arg_table argv skip j = none := by
  unfold arg_table
  have hcond : ¬ (0 ≤ j + skip - 1 ∧ j + skip - 1 < (argv.length : Int)) := by
    omega
  rw [if_neg hcond]

/-- Claim C1: in every invocation of the compiler-facing chunk callback, the
request passed to the open descriptor is `BUFSIZ` bytes, which does not exceed
the `LUAL_BUFFERSIZE` capacity of the reusable `reader_data` buffer (luaconf.h
defines `LUAL_BUFFERSIZE` as `BUFSIZ`), and in every file state the bytes
actually produced into the buffer number at most that capacity. -/
theorem c1_reader_chunk_bounded (f : VFile) :
    BUFSIZ ≤ LUAL_BUFFERSIZE ∧
    ∀ data f2, reader f = .ok (data, f2) → data.length ≤ LUAL_BUFFERSIZE := by
  refine ⟨Nat.le_refl _, fun data f2 h => ?_⟩
  by_cases hb : f.broken
  · simp [reader, PHYSFS_read, hb] at h
  · simp [reader, PHYSFS_read, hb] at h
    rw [← h.1]
    exact List.length_take_le _ _

/-- Claim C1 witness: the bound instantiated on a concrete one-byte file. -/
theorem c1_reader_chunk_bounded_witness :
    (['a'] : List Char).length ≤ LUAL_BUFFERSIZE :=
  (c1_reader_chunk_bounded ⟨['a'], 0, false⟩).2 ['a'] ⟨['a'], 1, false⟩
    (by simp [reader, PHYSFS_read, BUFSIZ])

end Seed

namespace Seed

/-- Claim C2 counterexample: on a one-byte file whose device reports the -1
read failure while not at end-of-stream, both `read(1)` and `read("*a")`
return the accumulated (empty) string as an ordinary value instead of
raising: the `read_bytes` loop never tests for the -1 result. -/
theorem c2_read_failure_counterexample :
    PHYSFS_eof ⟨['a'], 0, true⟩ = false ∧
    seed_file_read (some ⟨['a'], 0, true⟩) (.num 1) =
      .value (some []) ⟨['a'], 0, true⟩ ∧
    seed_file_read (some ⟨['a'], 0, true⟩) .all =
      .value (some []) ⟨['a'], 0, true⟩ := by
  refine ⟨rfl, ?_, ?_⟩ <;>
    simp [seed_file_read, read_bytes, read_bytes_loop, PHYSFS_read, PHYSFS_eof]

/-- Claim C2 (amended): when the chunked read reports a failure during
`read(n)` or `read("*a")`, the operation does not raise: the loop exits and
the bytes accumulated so far (none, since the failure hits the first chunk)
are returned as an ordinary value; only the compiler-facing `reader` callback
raises on the -1 result. -/
theorem c2_read_failure_returns_value (f : VFile) (n : Int)
    (hb : f.broken = true) (he : PHYSFS_eof f = false) (hn : 0 ≤ n) :
    seed_file_read (some f) (.num n) = .value (some []) f ∧
    seed_file_read (some f) .all = .value (some []) f ∧
    reader f = .error "error reading file" := by
  have hloop : ∀ b acc, read_bytes_loop f b acc = (acc, f) := by
    intro b acc
    unfold read_bytes_loop
    simp [PHYSFS_read, hb]
  refine ⟨?_, ?_, ?_⟩
  · simp [seed_file_read, he, read_bytes, hloop, show ¬ n < 0 by omega]
  · simp [seed_file_read, read_bytes, hloop]
  · simp [reader, PHYSFS_read, hb]

/-- Claim C2 witness: the amended statement on a concrete failing file. -/
theorem c2_read_failure_returns_value_witness :
    seed_file_read (some ⟨['a'], 0, true⟩) (.num 1) =
      .value (some []) ⟨['a'], 0, true⟩ ∧
    seed_file_read (some ⟨['a'], 0, true⟩) .all =
      .value (some []) ⟨['a'], 0, true⟩ ∧
    reader ⟨['a'], 0, true⟩ = .error "error reading file" :=
  c2_read_failure_returns_value ⟨['a'], 0, true⟩ 1 rfl rfl (by norm_num)

/-- Claim C3 counterexample: the identifier "foo" contains k = 0 separator
occurrences, but its derived path "/foo.lua" contains one `/` character, not
exactly k = 0: the derivation adds a leading `/` on top of the k replaced
separators. -/
theorem c3_slash_count_counterexample :
    (['f', 'o', 'o'] : List Char).count '.' = 0 ∧
    ¬ (to_filename ['f', 'o', 'o']).count '/' = 0 := by
  refine ⟨rfl, ?_⟩
  decide

/-- Claim C3 (amended): module-path derivation is pure and deterministic: for
every dotted identifier with k separator occurrences (and no `/` of its own),
the derived virtual path has exactly k + 1 `/` characters — the k replaced
separators plus the leading `/` — a leading `/`, and the fixed ".lua"
extension appended; equal identifiers yield equal paths (instantiated below
for k = 0, 1, 3). -/
theorem c3_module_path (m : List Char) (hm : '/' ∉ m) :
    (to_filename m).count '/' = m.count '.' + 1 ∧
    (to_filename m).head? = some '/' ∧
    (∃ body, to_filename m = ('/' :: body) ++ ['.', 'l', 'u', 'a']) ∧
    (∀ m2, m = m2 → to_filename m = to_filename m2) := by
  refine ⟨?_, rfl, ⟨m.map (fun c => if c = '.' then '/' else c), rfl⟩,
    fun m2 h => by rw [h]⟩
  unfold to_filename
  rw [List.count_append, List.count_cons, count_slash_map m hm]
  simp

/-- Claim C3 witness: the amended statement at identifiers with k = 0, 1 and 3
separators. -/
theorem c3_module_path_witness :
    (to_filename ['f', 'o', 'o']).count '/' =
      (['f', 'o', 'o'] : List Char).count '.' + 1 ∧
    (to_filename ['a', '.', 'b']).count '/' =
      (['a', '.', 'b'] : List Char).count '.' + 1 ∧
    (to_filename ['a', '.', 'b', '.', 'c', '.', 'd']).count '/' =
      (['a', '.', 'b', '.', 'c', '.', 'd'] : List Char).count '.' + 1 :=
  ⟨(c3_module_path ['f', 'o', 'o'] (by decide)).1,
   (c3_module_path ['a', '.', 'b'] (by decide)).1,
   (c3_module_path ['a', '.', 'b', '.', 'c', '.', 'd'] (by decide)).1⟩

/-- Claim C4: for every open handle at end-of-stream, `read(n)` with n > 0
returns nil, while `read("*a")` returns the empty string and never nil. -/
theorem c4_eof_asymmetry (f : VFile) (n : Int) (hn : 0 < n)
    (he : PHYSFS_eof f = true) :
    seed_file_read (some f) (.num n) = .value none f ∧
    returned_value (seed_file_read (some f) .all) = some (some []) := by
  constructor
  · simp [seed_file_read, he, show ¬ n < 0 by omega]
  · have hloop : ∀ b, (read_bytes_loop f b []).1 = [] := by
      intro b
      unfold read_bytes_loop
      by_cases hb : f.broken
      · simp [PHYSFS_read, hb]
      · have hpos : f.contents.length ≤ f.pos := by simpa [PHYSFS_eof] using he
        simp [PHYSFS_read, hb, List.drop_eq_nil_of_le hpos]
    simp [seed_file_read, read_bytes, returned_value, hloop]

/-- Claim C4 witness: the asymmetry at a concrete empty file. -/
theorem c4_eof_asymmetry_witness :
    seed_file_read (some ⟨[], 0, false⟩) (.num 1) = .value none ⟨[], 0, false⟩ ∧
    returned_value (seed_file_read (some ⟨[], 0, false⟩) .all) =
      some (some []) :=
  c4_eof_asymmetry ⟨[], 0, false⟩ 1 (by norm_num) rfl

end Seed

namespace Seed

/-- Claim C5: on an open handle with 0 < r < n bytes remaining, `read(n)`
returns exactly the r remaining bytes (a short read) and leaves the position
at end-of-stream, and the immediately following `read(n')` with n' > 0
returns nil. -/
theorem c5_short_read (cs : List Char) (p : Nat) (n n' : Int)
    (hrem : p < cs.length) (hn : ((cs.length - p : Nat) : Int) < n)
    (hn' : 0 < n') :
    seed_file_read (some ⟨cs, p, false⟩) (.num n) =
      .value (some (cs.drop p)) ⟨cs, cs.length, false⟩ ∧
    (cs.drop p).length = cs.length - p ∧
    seed_file_read (some ⟨cs, cs.length, false⟩) (.num n') =
      .value none ⟨cs, cs.length, false⟩ := by
  refine ⟨?_, List.length_drop .., ?_⟩
  · have he : PHYSFS_eof ⟨cs, p, false⟩ = false := by
      simp only [PHYSFS_eof, decide_eq_false_iff_not]
      omega
    have hdr := read_bytes_loop_drains n.toNat cs p [] (Nat.le_of_lt hrem)
      (by omega)
    simp [seed_file_read, he, read_bytes, hdr, show ¬ n < 0 by omega]
  · have he : PHYSFS_eof ⟨cs, cs.length, false⟩ = true := by
      simp [PHYSFS_eof]
    simp [seed_file_read, he, show ¬ n' < 0 by omega]

/-- Claim C5 witness: the short read on a concrete two-byte file with n = 5,
followed by a bounded read with n' = 3. -/
theorem c5_short_read_witness :
    seed_file_read (some ⟨['a', 'b'], 0, false⟩) (.num 5) =
      .value (some (List.drop 0 ['a', 'b']))
        ⟨['a', 'b'], (['a', 'b'] : List Char).length, false⟩ ∧
    (List.drop 0 ['a', 'b'] : List Char).length =
      (['a', 'b'] : List Char).length - 0 ∧
    seed_file_read (some ⟨['a', 'b'], (['a', 'b'] : List Char).length, false⟩)
        (.num 3) =
      .value none ⟨['a', 'b'], (['a', 'b'] : List Char).length, false⟩ :=
  c5_short_read ['a', 'b'] 0 5 3 (by decide) (by decide) (by decide)

/-- Claim C6: close on an open handle NULLs the stored descriptor and returns
true when the underlying close succeeds, or returns (nil, message) keeping
the descriptor when it fails; on a handle whose descriptor is already NULL,
close and read both raise the closed-handle error instead of silently
succeeding. -/
theorem c6_close_lifecycle (f : VFile) (b : Bool) (a : ReadArg) :
    seed_file_close (some f) true = (.ok, none) ∧
    seed_file_close (some f) false = (.fail, some f) ∧
    seed_file_close none b = (.errClosed, none) ∧
    seed_file_read none a = .err "attempt to use a closed file" :=
  ⟨rfl, rfl, rfl, rfl⟩

/-- Claim C7: registering the physfs searcher inserts it at position 2 of the
`package.loaders` chain: a chain [A, B, ...] becomes [A, R, B, ...], keeping
every pre-existing entry in its relative order. -/
theorem c7_resolver_insertion (A B : Resolver) (rest : List Resolver) :
    init_physfs_loader (A :: B :: rest) = A :: .physfs_searcher :: B :: rest :=
  rfl

/-- Claim C8: when the self-mount fails and argv[1] names a mountable
archive, the fallback path is mounted and skip_arg becomes 2 instead of 1, so
for the same user-supplied arguments the forwarded 1-based argument list seen
by the entry point is identical in the two cases. -/
theorem c8_mount_fallback (selfPath exe fb : String) (us : List String)
    (mountOk : String → Bool) (hfb : mountOk fb = true) :
    mount_phase true mountOk selfPath (exe :: us) = some (1, selfPath) ∧
    mount_phase false mountOk selfPath (exe :: fb :: us) = some (2, fb) ∧
    forwarded_args (exe :: us) 1 = us ∧
    forwarded_args (exe :: fb :: us) 2 = us ∧
    forwarded_args (exe :: us) 1 = forwarded_args (exe :: fb :: us) 2 := by
  refine ⟨rfl, ?_, rfl, rfl, rfl⟩
  simp [mount_phase, hfb]

/-- Claim C8 witness: the two mount scenarios with user arguments
["a", "b"]. -/
theorem c8_mount_fallback_witness :
    mount_phase true (fun _ => true) "/base/seed" ("seed" :: ["a", "b"]) =
      some (1, "/base/seed") ∧
    mount_phase false (fun _ => true) "/base/seed"
        ("seed" :: "app.zip" :: ["a", "b"]) = some (2, "app.zip") ∧
    forwarded_args ("seed" :: ["a", "b"]) 1 = ["a", "b"] ∧
    forwarded_args ("seed" :: "app.zip" :: ["a", "b"]) 2 = ["a", "b"] ∧
    forwarded_args ("seed" :: ["a", "b"]) 1 =
      forwarded_args ("seed" :: "app.zip" :: ["a", "b"]) 2 :=
  c8_mount_fallback "/base/seed" "seed" "app.zip" ["a", "b"] (fun _ => true) rfl

/-- Claim C9: `read(0)` returns the empty string (not nil) when the handle is
not at end-of-stream, and nil when it is, although zero bytes are transferred
in both cases. -/
theorem c9_read_zero (f : VFile) :
    (PHYSFS_eof f = false →
      returned_value (seed_file_read (some f) (.num 0)) = some (some [])) ∧
    (PHYSFS_eof f = true →
      seed_file_read (some f) (.num 0) = .value none f) := by
  constructor
  · intro he
    have hloop : (read_bytes_loop f 0 []).1 = [] := by
      unfold read_bytes_loop
      by_cases hb : f.broken <;> simp [PHYSFS_read, hb]
    simp [seed_file_read, he, read_bytes, returned_value, hloop]
  · intro he
    simp [seed_file_read, he]

/-- Claim C9 witness: `read(0)` before and at end-of-stream on concrete
files. -/
theorem c9_read_zero_witness :
    returned_value (seed_file_read (some ⟨['a'], 0, false⟩) (.num 0)) =
      some (some []) ∧
    seed_file_read (some ⟨[], 0, false⟩) (.num 0) =
      .value none ⟨[], 0, false⟩ :=
  ⟨(c9_read_zero ⟨['a'], 0, false⟩).1 rfl, (c9_read_zero ⟨[], 0, false⟩).2 rfl⟩

/-- Claim C10: the global arg table keeps the skipped leading process
arguments at indices at most 0: after a self-mount (skip_arg 1) index 0 holds
the invocation path; after a fallback mount (skip_arg 2) index 0 holds the
fallback archive path and index -1 the invocation path; user arguments sit at
indices 1 and up in both cases. -/
theorem c10_arg_table_prefix (exe fb : String) (us : List String) (j : Nat) :
    arg_table (exe :: us) 1 0 = some exe ∧
    arg_table (exe :: fb :: us) 2 0 = some fb ∧
    arg_table (exe :: fb :: us) 2 (-1) = some exe ∧
    arg_table (exe :: us) 1 ((j : Int) + 1) = us[j]? ∧
    arg_table (exe :: fb :: us) 2 ((j : Int) + 1) = us[j]? := by
  refine ⟨?_, ?_, ?_, ?_, ?_⟩
  · rw [arg_table_get (exe :: us) 1 0 0 (by norm_num) (by simp)]
    exact List.getElem?_cons_zero
  · rw [arg_table_get (exe :: fb :: us) 2 0 1 (by norm_num) (by simp)]
    rw [List.getElem?_cons_succ]
    exact List.getElem?_cons_zero
  · rw [arg_table_get (exe :: fb :: us) 2 (-1) 0 (by norm_num) (by simp)]
    exact List.getElem?_cons_zero
  · by_cases hj : j < us.length
    · rw [arg_table_get (exe :: us) 1 ((j : Int) + 1) (j + 1) (by push_cast; ring)
        (by simp; omega)]
      exact List.getElem?_cons_succ
    · rw [arg_table_none (exe :: us) 1 ((j : Int) + 1) (by right; simp; omega)]
      rw [List.getElem?_eq_none (by omega)]
  · by_cases hj : j < us.length
    · rw [arg_table_get (exe :: fb :: us) 2 ((j : Int) + 1) (j + 2)
        (by push_cast; ring) (by simp; omega)]
      rw [List.getElem?_cons_succ]
      exact List.getElem?_cons_succ
    · rw [arg_table_none (exe :: fb :: us) 2 ((j : Int) + 1) (by right; simp; omega)]
      rw [List.getElem?_eq_none (by omega)]

end Seed
